import Mathlib

/-!
Shallow embedding of the twitch-translator-bot core (rate limiter,
translation cache, channel config store, token manager, command handlers
and the auto-translation pipeline) together with proofs about its
behaviour.  Sources: src/src/managers/rateLimiter.js,
src/src/managers/translationCache.js, src/src/managers/tokenManager.js,
src/src/handlers/commands.js, src/src/utils/index.js and the message
handler in src/src/handlers (concatenated into translationCache.js in the
snapshot).

Modelling conventions:
* JavaScript strings are modelled as Lean `String`; character-level
  operations are re-implemented over `String.data` so that they reduce in
  the kernel (the inputs of interest are ASCII, where JS `toLowerCase`,
  `trim`, `\s`, `\w` and `.length` agree with the ASCII definitions used
  here).
* `Date.now()` is an explicit `now : Int` parameter (milliseconds).
* Mutable singletons become explicit state values threaded through the
  operations; configuration constants (`RATE_LIMIT`, `CACHE_SIZE`,
  `CACHE_TTL`, ...) become explicit parameters.
* External collaborators (translator backend, language detector,
  moderation pattern list, the Twitch token endpoint) are oracle
  parameters, as the spec declares them out of scope.
* Logging, `debug` calls and the statistics counters (`this.stats`,
  `count`/`lastReset` fields that this implementation never reads) are
  not modelled: they do not feed back into any behaviour.
-/

/-! ## String utilities (ASCII models of the JS string operations) -/

/-- ASCII lower-casing of a single character, as JS `toLowerCase` acts on
ASCII. -/
def lowerChar (c : Char) : Char :=
  if 'A' ≤ c ∧ c ≤ 'Z' then Char.ofNat (c.toNat + 32) else c

/-- Model of JS `String.prototype.toLowerCase` (ASCII fragment). -/
def jsToLower (s : String) : String := ⟨s.data.map lowerChar⟩

/-- Whitespace test for the JS `\s` class and `trim` (ASCII fragment). -/
def isWsChar (c : Char) : Bool := c = ' ' ∨ c = '\t' ∨ c = '\n' ∨ c = '\r'

/-- Model of JS `String.prototype.trim` (ASCII whitespace). -/
def jsTrim (s : String) : String :=
  ⟨((s.data.dropWhile isWsChar).reverse.dropWhile isWsChar).reverse⟩

/-- Word character for the JS `\w` class: `[A-Za-z0-9_]`. -/
def isWordChar (c : Char) : Bool :=
  ('a' ≤ c ∧ c ≤ 'z') ∨ ('A' ≤ c ∧ c ≤ 'Z') ∨ ('0' ≤ c ∧ c ≤ '9') ∨ c = '_'

/-- Control characters removed by `sanitizeText`:
`[\u0000-\u001F\u007F-\u009F]`. -/
def isControlChar (c : Char) : Bool :=
  c.toNat ≤ 0x1F ∨ (0x7F ≤ c.toNat ∧ c.toNat ≤ 0x9F)

/-- Helper for `splitWs`; the fuel argument (instantiated with the length
of the character list) keeps the recursion structural so that concrete
instances reduce in the kernel. -/
def splitWsGo : Nat → List Char → List Char → List String
  | _, [], acc => [⟨acc.reverse⟩]
  | 0, _ :: _, acc => [⟨acc.reverse⟩]
  | fuel + 1, c :: rest, acc =>
      if isWsChar c then
        (⟨acc.reverse⟩ : String) :: splitWsGo fuel (rest.dropWhile isWsChar) []
      else
        splitWsGo fuel rest (c :: acc)

/-- Model of JS `String.prototype.split(/\s+/)`: splits on maximal runs of
whitespace; a leading (resp. trailing) run contributes a leading (resp.
trailing) empty token, exactly as the JS regex split does. -/
def splitWs (s : String) : List String := splitWsGo s.data.length s.data []

/-- Model of `.replace(/\{EMOTE\}/g, '')`: removes every occurrence of the
placeholder `"{EMOTE}"`, scanning left to right. -/
def removeEmoteTokens : List Char → List Char
  | [] => []
  | '{' :: 'E' :: 'M' :: 'O' :: 'T' :: 'E' :: '}' :: rest => removeEmoteTokens rest
  | c :: rest => c :: removeEmoteTokens rest

/-- String-level wrapper for `removeEmoteTokens`. -/
def stripEmotePlaceholders (s : String) : String := ⟨removeEmoteTokens s.data⟩

/-- Model of `.split("{EMOTE}")` used when re-splicing emotes: the
segments between placeholder occurrences. -/
def splitOnEmote : List Char → List (List Char)
  | [] => [[]]
  | '{' :: 'E' :: 'M' :: 'O' :: 'T' :: 'E' :: '}' :: rest => [] :: splitOnEmote rest
  | c :: rest =>
      match splitOnEmote rest with
      | s :: ss => (c :: s) :: ss
      | [] => [[c]]

/-! ## src/src/utils/index.js -/

/-- Source `normalizeChannelName`: strip one leading `#` sigil, then
lower-case. -/
def normalizeChannelName (channelName : String) : String :=
  match channelName.data with
  | '#' :: rest => jsToLower ⟨rest⟩
  | _ => jsToLower channelName

/-- Source `isEmote`: the word matches `/^:[a-zA-Z0-9_]+:$/`. -/
def isEmote (word : String) : Bool :=
  match word.data with
  | ':' :: rest =>
      match rest.reverse with
      | ':' :: mid => mid ≠ [] ∧ mid.all isWordChar
      | _ => false
  | _ => false

/-- Result record of source `processEmotes`. -/
structure EmoteData where
  processed : String
  hasEmotes : Bool
  emotes : List String
  deriving Repr, DecidableEq

/-- Source `processEmotes`: split the message on whitespace, replace each
emote word by the `"{EMOTE}"` placeholder, re-join with single spaces. -/
def processEmotes (message : String) : EmoteData :=
  if message = "" then ⟨"", false, []⟩
  else
    let words := splitWs message
    let emotes := words.filter isEmote
    let processedWords := words.map fun w => if isEmote w then "{EMOTE}" else w
    ⟨String.intercalate " " processedWords, emotes ≠ [], emotes⟩

/-- Tail of source `sanitizeText`: strip a leading `/^[\/\.]\w+\s*/`
match (Twitch command injection). -/
def stripCommandInjection (s : String) : String :=
  match s.data with
  | c :: c2 :: rest =>
      if (c = '/' ∨ c = '.') ∧ isWordChar c2 then
        ⟨(rest.dropWhile isWordChar).dropWhile isWsChar⟩
      else s
  | _ => s

/-- Source `sanitizeText`: drop control characters, trim, then strip a
leading transport-command-like sequence. -/
def sanitizeText (text : String) : String :=
  if text = "" then ""
  else stripCommandInjection (jsTrim ⟨text.data.filter fun c => ¬ isControlChar c⟩)

/-- Source `isMessageTooLong` against limit `maxMessageLength`
(config `MAX_MESSAGE_LENGTH`). -/
def isMessageTooLong (maxMessageLength : Nat) (message : String) : Bool :=
  message ≠ "" ∧ maxMessageLength < message.length

/-! ## src/src/managers/rateLimiter.js

State of the `RateLimiter` singleton.  Each scope keeps the list of
admission timestamps; the vestigial `count`/`lastReset` fields (never read
by this implementation) are not modelled. -/

structure RateLimiter where
  globalTimestamps : List Int
  channels : String → Option (List Int)

/-- State of the rate limiter at process start (constructor). -/
def initialRateLimiter : RateLimiter := ⟨[], fun _ => none⟩

/-- Lazy purge used by `shouldTranslate`:
`timestamps.filter(t => now - t < 60000)`. -/
def purgeWindow (now : Int) (ts : List Int) : List Int :=
  ts.filter fun t => now - t < 60000

/-- Channel window of a limiter state (empty when the channel entry has
not been initialised yet, matching the lazy `this.channels[name]`
creation). -/
def chanWindow (rl : RateLimiter) (name : String) : List Int :=
  (rl.channels name).getD []

/-- Source `RateLimiter.shouldTranslate`.  `g` is
`config.RATE_LIMIT.messagesPerMinute`, `n` is
`config.RATE_LIMIT.translationsPerChannel`.  Returns the admission
decision and the updated limiter state. -/
def shouldTranslate (g n : Nat) (rl : RateLimiter) (channelName : String)
    (now : Int) : Bool × RateLimiter :=
  let normalizedName := normalizeChannelName channelName
  let globalTs := purgeWindow now rl.globalTimestamps
  if g ≤ globalTs.length then
    (false, { rl with globalTimestamps := globalTs })
  else
    let chTs := purgeWindow now (chanWindow rl normalizedName)
    if n ≤ chTs.length then
      (false,
        { globalTimestamps := globalTs,
          channels := fun k =>
            if k = normalizedName then some chTs else rl.channels k })
    else
      (true,
        { globalTimestamps := globalTs ++ [now],
          channels := fun k =>
            if k = normalizedName then some (chTs ++ [now]) else rl.channels k })

/-- Run a sequence of admission checks for a single channel, collecting
the per-call decisions. -/
def runCalls (g n : Nat) (channelName : String) :
    List Int → RateLimiter → List Bool × RateLimiter
  | [], rl => ([], rl)
  | t :: rest, rl =>
      let r := shouldTranslate g n rl channelName t
      let rs := runCalls g n channelName rest r.2
      (r.1 :: rs.1, rs.2)

/-! ## Rate limiter lemmas -/

lemma purgeWindow_sublist (now : Int) (ts : List Int) :
    (purgeWindow now ts).Sublist ts :=
  List.filter_sublist ts

lemma purgeWindow_eq_self (now : Int) (ts : List Int)
    (h : ∀ t ∈ ts, now - t < 60000) : purgeWindow now ts = ts := by
  apply List.filter_eq_self.mpr
  intro a ha
  simpa using h a ha

lemma shouldTranslate_fst_iff (g n : Nat) (rl : RateLimiter)
    (channelName : String) (now : Int) :
    (shouldTranslate g n rl channelName now).1 = true ↔
      (purgeWindow now rl.globalTimestamps).length < g ∧
      (purgeWindow now (chanWindow rl (normalizeChannelName channelName))).length < n := by
  by_cases h1 : g ≤ (purgeWindow now rl.globalTimestamps).length
  · simp [shouldTranslate, h1]
    try omega
  · by_cases h2 : n ≤ (purgeWindow now (chanWindow rl (normalizeChannelName channelName))).length
    · simp [shouldTranslate, h1, h2]
      try omega
    · simp [shouldTranslate, h1, h2]
      try omega

/-- C1: a rate-limiter admission check that finds either the global or the
channel window at capacity (after the lazy purge) returns `false` and
records no admission timestamp in either scope: both resulting windows are
sub-sequences of the previous ones (only expired timestamps are dropped,
nothing is appended). -/
theorem rejected_admission_records_nothing (g n : Nat) (rl : RateLimiter)
    (channelName : String) (now : Int)
    (h : g ≤ (purgeWindow now rl.globalTimestamps).length ∨
         n ≤ (purgeWindow now (chanWindow rl (normalizeChannelName channelName))).length) :
    (shouldTranslate g n rl channelName now).1 = false ∧
    (shouldTranslate g n rl channelName now).2.globalTimestamps =
      purgeWindow now rl.globalTimestamps ∧
    (shouldTranslate g n rl channelName now).2.globalTimestamps.Sublist
      rl.globalTimestamps ∧
    (chanWindow (shouldTranslate g n rl channelName now).2
        (normalizeChannelName channelName)).Sublist
      (chanWindow rl (normalizeChannelName channelName)) := by
  by_cases h1 : g ≤ (purgeWindow now rl.globalTimestamps).length
  · refine ⟨?_, ?_, ?_, ?_⟩ <;>
      simp [shouldTranslate, h1, chanWindow, purgeWindow_sublist, List.Sublist.refl]
  · rcases h with h | h2
    · exact absurd h h1
    · have h2' : n ≤
          (purgeWindow now ((rl.channels (normalizeChannelName channelName)).getD [])).length := by
        simpa [chanWindow] using h2
      refine ⟨?_, ?_, ?_, ?_⟩ <;>
        simp [shouldTranslate, h1, h2', chanWindow, purgeWindow_sublist]

/-- Concrete instance of `rejected_admission_records_nothing`: global
limit 1, one fresh timestamp already in the global window. -/
theorem rejected_admission_records_nothing_witness :
    (1 ≤ (purgeWindow 5 (RateLimiter.mk [0] fun _ => none).globalTimestamps).length ∨
     4 ≤ (purgeWindow 5 (chanWindow (RateLimiter.mk [0] fun _ => none)
            (normalizeChannelName "#Foo"))).length) ∧
    ((shouldTranslate 1 4 (RateLimiter.mk [0] fun _ => none) "#Foo" 5).1 = false ∧
     (shouldTranslate 1 4 (RateLimiter.mk [0] fun _ => none) "#Foo" 5).2.globalTimestamps =
       purgeWindow 5 (RateLimiter.mk [0] fun _ => none).globalTimestamps ∧
     (shouldTranslate 1 4 (RateLimiter.mk [0] fun _ => none) "#Foo" 5).2.globalTimestamps.Sublist
       (RateLimiter.mk [0] fun _ => none).globalTimestamps ∧
     (chanWindow (shouldTranslate 1 4 (RateLimiter.mk [0] fun _ => none) "#Foo" 5).2
         (normalizeChannelName "#Foo")).Sublist
       (chanWindow (RateLimiter.mk [0] fun _ => none) (normalizeChannelName "#Foo"))) :=
  ⟨Or.inl (by decide),
   rejected_admission_records_nothing 1 4 (RateLimiter.mk [0] fun _ => none) "#Foo" 5
     (Or.inl (by decide))⟩

lemma runCalls_formula (g n : Nat) (channelName : String) :
    ∀ (times ws : List Int) (rl : RateLimiter),
      rl.globalTimestamps = ws →
      chanWindow rl (normalizeChannelName channelName) = ws →
      ws.length ≤ min g n →
      ((ws ++ times).Pairwise fun a b => b - a < 60000) →
      (runCalls g n channelName times rl).1 =
        (List.range times.length).map fun j => decide (ws.length + j < min g n) := by
  intro times
  induction times with
  | nil =>
    intro ws rl h1 h2 h3 h4
    simp [runCalls]
  | cons t rest ih =>
    intro ws rl h1 h2 h3 h4
    have hmemt : ∀ x ∈ ws, t - x < 60000 := fun x hx =>
      (List.pairwise_append.mp h4).2.2 x hx t (List.mem_cons_self t rest)
    have hpurgeG : purgeWindow t rl.globalTimestamps = ws := by
      rw [h1]; exact purgeWindow_eq_self t ws hmemt
    have hpurgeC : purgeWindow t (chanWindow rl (normalizeChannelName channelName)) = ws := by
      rw [h2]; exact purgeWindow_eq_self t ws hmemt
    rcases Nat.lt_or_ge ws.length (min g n) with hlt | hge
    · -- below capacity: the call is admitted and both windows grow by [t]
      have hg : ¬ g ≤ ws.length := by omega
      have hn : ¬ n ≤ ws.length := by omega
      have hstep : shouldTranslate g n rl channelName t =
          (true,
            { globalTimestamps := ws ++ [t],
              channels := fun k =>
                if k = normalizeChannelName channelName then some (ws ++ [t])
                else rl.channels k }) := by
        simp only [shouldTranslate]
        rw [hpurgeG, hpurgeC]
        simp [hg, hn]
      have hrec := ih (ws ++ [t])
        { globalTimestamps := ws ++ [t],
          channels := fun k =>
            if k = normalizeChannelName channelName then some (ws ++ [t])
            else rl.channels k }
        rfl (by simp [chanWindow])
        (by simp; omega)
        (by rw [List.append_assoc]; simpa using h4)
      simp only [runCalls, hstep, hrec, List.length_cons, List.range_succ_eq_map,
        List.map_cons, List.map_map]
      congr 1
      · simp
        try omega
      · apply List.map_congr_left
        intro j hj
        simp only [Function.comp_apply, List.length_append, List.length_singleton]
        rw [decide_eq_decide]
        omega
    · -- at capacity: the call is rejected and both windows stay `ws`
      have hcap : ws.length = min g n := le_antisymm h3 hge
      have hpair : ((ws ++ rest).Pairwise fun a b => b - a < 60000) :=
        h4.sublist (List.Sublist.append_left ((List.Sublist.refl rest).cons t) ws)
      by_cases hgws : g ≤ ws.length
      · have hstep : shouldTranslate g n rl channelName t =
            (false, { rl with globalTimestamps := ws }) := by
          simp only [shouldTranslate]
          rw [hpurgeG]
          simp [hgws]
        have hrec := ih ws { rl with globalTimestamps := ws }
          rfl (by simpa [chanWindow] using h2) h3 hpair
        simp only [runCalls, hstep, hrec, List.length_cons, List.range_succ_eq_map,
          List.map_cons, List.map_map]
        congr 1
        · simp
          try omega
        · apply List.map_congr_left
          intro j hj
          simp only [Function.comp_apply]
          rw [decide_eq_decide]
          omega
      · have hnws : n ≤ ws.length := by omega
        have hstep : shouldTranslate g n rl channelName t =
            (false,
              { globalTimestamps := ws,
                channels := fun k =>
                  if k = normalizeChannelName channelName then some ws
                  else rl.channels k }) := by
          simp only [shouldTranslate]
          rw [hpurgeG, hpurgeC]
          simp [hgws, hnws]
        have hrec := ih ws
          { globalTimestamps := ws,
            channels := fun k =>
              if k = normalizeChannelName channelName then some ws
              else rl.channels k }
          rfl (by simp [chanWindow]) h3 hpair
        simp only [runCalls, hstep, hrec, List.length_cons, List.range_succ_eq_map,
          List.map_cons, List.map_map]
        congr 1
        · simp
          try omega
        · apply List.map_congr_left
          intro j hj
          simp only [Function.comp_apply]
          rw [decide_eq_decide]
          omega

/-- C4: sliding-window semantics of the rate limiter.  (1) An admission
check succeeds exactly when, after the lazy purge of timestamps older than
60s (performed at evaluation time, before the capacity check), both the
global and the channel window are strictly below their limits.  (2) From a
fresh limiter, for calls on one channel all within one trailing 60-second
window, the j-th call is admitted exactly when j < min g n; hence (3) for
the channel scope with limit n (global limit not binding, n ≤ g) the first
n calls are admitted and the (n+1)-th is rejected.  (4) Once the window
fully elapses (every recorded timestamp at least 60s old), admission is
granted again. -/
theorem sliding_window_rate_limiting :
    (∀ (g n : Nat) (rl : RateLimiter) (channelName : String) (now : Int),
        (shouldTranslate g n rl channelName now).1 = true ↔
          (purgeWindow now rl.globalTimestamps).length < g ∧
          (purgeWindow now (chanWindow rl (normalizeChannelName channelName))).length < n) ∧
    (∀ (g n : Nat) (channelName : String) (times : List Int),
        (times.Pairwise fun a b => b - a < 60000) →
        (runCalls g n channelName times initialRateLimiter).1 =
          (List.range times.length).map fun j => decide (j < min g n)) ∧
    (∀ (g n : Nat) (channelName : String) (times : List Int),
        n ≤ g →
        (times.Pairwise fun a b => b - a < 60000) →
        times.length = n + 1 →
        (runCalls g n channelName times initialRateLimiter).1.take n =
            List.replicate n true ∧
        (runCalls g n channelName times initialRateLimiter).1.getLast? = some false) ∧
    (∀ (g n : Nat) (rl : RateLimiter) (channelName : String) (now : Int),
        0 < g → 0 < n →
        (∀ t ∈ rl.globalTimestamps, 60000 ≤ now - t) →
        (∀ t ∈ chanWindow rl (normalizeChannelName channelName), 60000 ≤ now - t) →
        (shouldTranslate g n rl channelName now).1 = true) := by
  have formula : ∀ (g n : Nat) (channelName : String) (times : List Int),
      (times.Pairwise fun a b => b - a < 60000) →
      (runCalls g n channelName times initialRateLimiter).1 =
        (List.range times.length).map fun j => decide (j < min g n) := by
    intro g n channelName times hp
    have h := runCalls_formula g n channelName times [] initialRateLimiter rfl rfl
      (by simp) (by simpa using hp)
    simpa using h
  refine ⟨shouldTranslate_fst_iff, formula, ?_, ?_⟩
  · intro g n channelName times hng hp hlen
    have hmin : min g n = n := Nat.min_eq_right hng
    have h2 : (runCalls g n channelName times initialRateLimiter).1 =
        (List.range times.length).map fun j => decide (j < n) := by
      rw [formula g n channelName times hp, hmin]
    rw [h2, hlen]
    constructor
    · rw [← List.map_take, List.take_range]
      have hminn : min n (n + 1) = n := by omega
      rw [hminn]
      refine List.eq_replicate_iff.mpr ⟨by simp, ?_⟩
      intro b hb
      rcases List.mem_map.mp hb with ⟨j, hj, rfl⟩
      rcases List.mem_range.mp hj with hjn
      simp [hjn]
    · rw [List.range_succ, List.map_append]
      rw [show List.map (fun j => decide (j < n)) [n] = [decide (n < n)] from rfl,
        List.getLast?_concat]
      simp
  · intro g n rl channelName now hg hn hG hC
    rw [shouldTranslate_fst_iff]
    constructor
    · have hnil : purgeWindow now rl.globalTimestamps = [] := by
        refine List.filter_eq_nil_iff.mpr ?_
        intro a ha
        have := hG a ha
        simp
        omega
      rw [hnil]
      simpa using hg
    · have hnil : purgeWindow now (chanWindow rl (normalizeChannelName channelName)) = [] := by
        refine List.filter_eq_nil_iff.mpr ?_
        intro a ha
        have := hC a ha
        simp
        omega
      rw [hnil]
      simpa using hn

/-- Concrete instance of `sliding_window_rate_limiting`: limits g = 5,
n = 2, three calls in one window admit exactly the first two; a stale
window admits again. -/
theorem sliding_window_rate_limiting_witness :
    (List.Pairwise (fun a b : Int => b - a < 60000) [0, 1, 2] ∧
      (runCalls 5 2 "chan" [0, 1, 2] initialRateLimiter).1 =
        (List.range 3).map fun j => decide (j < min 5 2)) ∧
    (2 ≤ 5 ∧ ([0, 1, 2] : List Int).length = 2 + 1 ∧
      (runCalls 5 2 "chan" [0, 1, 2] initialRateLimiter).1.take 2 =
        List.replicate 2 true ∧
      (runCalls 5 2 "chan" [0, 1, 2] initialRateLimiter).1.getLast? = some false) ∧
    (0 < 5 ∧ 0 < 2 ∧
      (shouldTranslate 5 2 (RateLimiter.mk [-100000] fun _ => none) "chan" 0).1 = true) := by
  have h3 := sliding_window_rate_limiting.2.2.1 5 2 "chan" [0, 1, 2]
    (by decide) (by decide) (by decide)
  refine ⟨⟨by decide, ?_⟩, ⟨by decide, by decide, h3.1, h3.2⟩, ⟨by decide, by decide, ?_⟩⟩
  · exact sliding_window_rate_limiting.2.1 5 2 "chan" [0, 1, 2] (by decide)
  · refine sliding_window_rate_limiting.2.2.2 5 2 (RateLimiter.mk [-100000] fun _ => none)
      "chan" 0 (by decide) (by decide) ?_ ?_
    · intro t ht
      simp at ht
      omega
    · intro t ht
      simp [chanWindow] at ht

/-! ## src/src/managers/translationCache.js

State of the `TranslationCache` singleton: `keys` is the recency list
(most-recently-used first), `entries` the key-indexed store.  The
`stats` counters feed only logging and are not modelled. -/

structure CacheEntry where
  translatedText : String
  timestamp : Int
  deriving Repr, DecidableEq

structure TranslationCache where
  keys : List String
  entries : String → Option CacheEntry

/-- State of the cache at process start (constructor). -/
def emptyCache : TranslationCache := ⟨[], fun _ => none⟩

/-- Composite cache key: `` `${sourceLang}|${targetLang}|${sourceText}` ``. -/
def cacheKey (sourceText sourceLang targetLang : String) : String :=
  sourceLang ++ "|" ++ targetLang ++ "|" ++ sourceText

/-- Source `TranslationCache._moveToFront`: JS computes
`index = keys.indexOf(key)` and splices only when `index > 0`; `index`
is `-1` exactly when the key is absent, so the guard is "present and not
already in front". -/
def moveToFront (keys : List String) (key : String) : List String :=
  if key ∈ keys ∧ 0 < keys.indexOf key then key :: keys.erase key else keys

/-- Source `TranslationCache.add`.  `cacheSize` is `config.CACHE_SIZE`. -/
def TranslationCache.add (c : TranslationCache) (cacheSize : Nat) (now : Int)
    (sourceText sourceLang targetLang translatedText : String) : TranslationCache :=
  let key := cacheKey sourceText sourceLang targetLang
  match c.entries key with
  | some _ =>
      { keys := moveToFront c.keys key,
        entries := fun k => if k = key then some ⟨translatedText, now⟩ else c.entries k }
  | none =>
      let entries1 : String → Option CacheEntry :=
        fun k => if k = key then some ⟨translatedText, now⟩ else c.entries k
      let keys1 := key :: c.keys
      if cacheSize < keys1.length then
        let oldestKey := keys1.getLastD ""
        { keys := keys1.dropLast,
          entries := fun k => if k = oldestKey then none else entries1 k }
      else
        { keys := keys1, entries := entries1 }

/-- Source `TranslationCache.get`.  `cacheTTL` is `config.CACHE_TTL`.
Returns the hit (or `none`) and the updated cache (a hit moves the key to
the front of the recency list). -/
def TranslationCache.get (c : TranslationCache) (cacheTTL now : Int)
    (sourceText sourceLang targetLang : String) : Option String × TranslationCache :=
  let key := cacheKey sourceText sourceLang targetLang
  match c.entries key with
  | some entry =>
      if now - entry.timestamp < cacheTTL then
        (some entry.translatedText, { c with keys := moveToFront c.keys key })
      else (none, c)
  | none => (none, c)

/-- Source `TranslationCache.cleanExpired` (the periodic sweep). -/
def TranslationCache.cleanExpired (c : TranslationCache) (cacheTTL now : Int) :
    TranslationCache :=
  let expiredKeys := c.keys.filter fun k =>
    match c.entries k with
    | some e => decide (cacheTTL < now - e.timestamp)
    | none => false
  { keys := c.keys.filter fun k => k ∉ expiredKeys,
    entries := fun k => if k ∈ expiredKeys then none else c.entries k }

/-- An operation against the cache: a `put` (source `add`) or a `lookup`
(source `get`), each at its own clock reading. -/
inductive CacheOp where
  | put (now : Int) (sourceText sourceLang targetLang translatedText : String)
  | lookup (now : Int) (sourceText sourceLang targetLang : String)

def applyCacheOp (cacheSize : Nat) (cacheTTL : Int) (c : TranslationCache) :
    CacheOp → TranslationCache
  | .put now st sl tl tt => c.add cacheSize now st sl tl tt
  | .lookup now st sl tl => (c.get cacheTTL now st sl tl).2

def runCacheOps (cacheSize : Nat) (cacheTTL : Int) (ops : List CacheOp)
    (c : TranslationCache) : TranslationCache :=
  ops.foldl (applyCacheOp cacheSize cacheTTL) c

/-- Well-formedness of a cache state: the recency list has no duplicates
and holds exactly the keys that have entries. -/
def CacheWF (c : TranslationCache) : Prop :=
  c.keys.Nodup ∧ ∀ k, (c.entries k).isSome ↔ k ∈ c.keys

lemma cacheWF_empty : CacheWF emptyCache := by
  constructor
  · simp [emptyCache]
  · intro k
    simp [emptyCache]

lemma mem_moveToFront (keys : List String) (key a : String) :
    a ∈ moveToFront keys key ↔ a ∈ keys := by
  unfold moveToFront
  by_cases h : key ∈ keys ∧ 0 < keys.indexOf key
  · rw [if_pos h]
    by_cases hak : a = key
    · subst hak
      simp [h.1]
    · simp [hak, List.mem_erase_of_ne hak]
  · rw [if_neg h]

lemma length_moveToFront (keys : List String) (key : String) :
    (moveToFront keys key).length = keys.length := by
  unfold moveToFront
  by_cases h : key ∈ keys ∧ 0 < keys.indexOf key
  · rw [if_pos h]
    have hlen := List.length_erase_of_mem h.1
    have hpos : 0 < keys.length := List.length_pos.mpr (List.ne_nil_of_mem h.1)
    simp [hlen]
    omega
  · rw [if_neg h]

lemma nodup_moveToFront (keys : List String) (key : String) (h : keys.Nodup) :
    (moveToFront keys key).Nodup := by
  unfold moveToFront
  by_cases hc : key ∈ keys ∧ 0 < keys.indexOf key
  · rw [if_pos hc]
    refine List.nodup_cons.mpr ⟨?_, h.erase key⟩
    intro hmem
    exact absurd (h.mem_erase_iff.mp hmem).1 (by simp)
  · rw [if_neg hc]
    exact h

lemma getLastD_eq_getLast (l : List String) (h : l ≠ []) (d : String) :
    l.getLastD d = l.getLast h := by
  rw [List.getLastD_eq_getLast?, List.getLast?_eq_getLast_of_ne_nil h]
  rfl

lemma mem_dropLast_iff (l : List String) (hne : l ≠ []) (hnd : l.Nodup) (a : String) :
    a ∈ l.dropLast ↔ a ∈ l ∧ a ≠ l.getLast hne := by
  have hsplit := List.dropLast_append_getLast hne
  have hnd2 : (l.dropLast ++ [l.getLast hne]).Nodup := by rw [hsplit]; exact hnd
  have hdisj := (List.nodup_append.mp hnd2).2.2
  constructor
  · intro ha
    refine ⟨(List.dropLast_sublist l).subset ha, ?_⟩
    intro heq
    exact hdisj (heq ▸ ha) (by simp)
  · rintro ⟨ha, hne2⟩
    rw [← hsplit] at ha
    rcases List.mem_append.mp ha with h1 | h1
    · exact h1
    · simp at h1
      exact absurd h1 hne2

lemma add_eq_refresh (c : TranslationCache) (cacheSize : Nat) (now : Int)
    (st sl tl tt : String) (e : CacheEntry)
    (hent : c.entries (cacheKey st sl tl) = some e) :
    c.add cacheSize now st sl tl tt =
      { keys := moveToFront c.keys (cacheKey st sl tl),
        entries := fun k =>
          if k = cacheKey st sl tl then some ⟨tt, now⟩ else c.entries k } := by
  unfold TranslationCache.add
  simp only [hent]

lemma add_eq_evict (c : TranslationCache) (cacheSize : Nat) (now : Int)
    (st sl tl tt : String)
    (hent : c.entries (cacheKey st sl tl) = none)
    (hS : cacheSize < c.keys.length + 1) :
    c.add cacheSize now st sl tl tt =
      { keys := (cacheKey st sl tl :: c.keys).dropLast,
        entries := fun k =>
          if k = (cacheKey st sl tl :: c.keys).getLastD "" then none
          else if k = cacheKey st sl tl then some ⟨tt, now⟩ else c.entries k } := by
  unfold TranslationCache.add
  simp only [hent, List.length_cons]
  rw [if_pos hS]

lemma add_eq_grow (c : TranslationCache) (cacheSize : Nat) (now : Int)
    (st sl tl tt : String)
    (hent : c.entries (cacheKey st sl tl) = none)
    (hS : ¬ cacheSize < c.keys.length + 1) :
    c.add cacheSize now st sl tl tt =
      { keys := cacheKey st sl tl :: c.keys,
        entries := fun k =>
          if k = cacheKey st sl tl then some ⟨tt, now⟩ else c.entries k } := by
  unfold TranslationCache.add
  simp only [hent, List.length_cons]
  rw [if_neg hS]

lemma get_eq_hit (c : TranslationCache) (cacheTTL now : Int) (st sl tl : String)
    (e : CacheEntry) (hent : c.entries (cacheKey st sl tl) = some e)
    (htt : now - e.timestamp < cacheTTL) :
    c.get cacheTTL now st sl tl =
      (some e.translatedText,
        { c with keys := moveToFront c.keys (cacheKey st sl tl) }) := by
  unfold TranslationCache.get
  simp only [hent]
  rw [if_pos htt]

lemma get_eq_stale (c : TranslationCache) (cacheTTL now : Int) (st sl tl : String)
    (e : CacheEntry) (hent : c.entries (cacheKey st sl tl) = some e)
    (htt : ¬ now - e.timestamp < cacheTTL) :
    c.get cacheTTL now st sl tl = (none, c) := by
  unfold TranslationCache.get
  simp only [hent]
  rw [if_neg htt]

lemma get_eq_miss (c : TranslationCache) (cacheTTL now : Int) (st sl tl : String)
    (hent : c.entries (cacheKey st sl tl) = none) :
    c.get cacheTTL now st sl tl = (none, c) := by
  unfold TranslationCache.get
  simp only [hent]

lemma add_cacheWF (c : TranslationCache) (cacheSize : Nat) (now : Int)
    (st sl tl tt : String) (h : CacheWF c) :
    CacheWF (c.add cacheSize now st sl tl tt) := by
  rcases h with ⟨hnd, hiso⟩
  cases hent : c.entries (cacheKey st sl tl) with
  | some e =>
    rw [add_eq_refresh c cacheSize now st sl tl tt e hent]
    refine ⟨nodup_moveToFront _ _ hnd, ?_⟩
    intro k
    by_cases hk : k = cacheKey st sl tl
    · have hmem : cacheKey st sl tl ∈ c.keys := (hiso _).mp (by rw [hent]; rfl)
      rw [hk]
      simp [mem_moveToFront, hmem]
    · simp [hk, mem_moveToFront, hiso k]
  | none =>
    have hkey_not : cacheKey st sl tl ∉ c.keys := by
      intro hm
      have := (hiso (cacheKey st sl tl)).mpr hm
      rw [hent] at this
      simp at this
    have hnd1 : (cacheKey st sl tl :: c.keys).Nodup :=
      List.nodup_cons.mpr ⟨hkey_not, hnd⟩
    by_cases hS : cacheSize < c.keys.length + 1
    · rw [add_eq_evict c cacheSize now st sl tl tt hent hS]
      have hne : cacheKey st sl tl :: c.keys ≠ [] := List.cons_ne_nil _ _
      refine ⟨(List.dropLast_sublist _).nodup hnd1, ?_⟩
      intro k
      rw [mem_dropLast_iff _ hne hnd1 k, getLastD_eq_getLast _ hne]
      by_cases hk1 : k = (cacheKey st sl tl :: c.keys).getLast hne
      · simp [hk1]
      · by_cases hk2 : k = cacheKey st sl tl
        · subst hk2
          simp [hk1]
        · simp [hk1, hk2, hiso k]
    · rw [add_eq_grow c cacheSize now st sl tl tt hent hS]
      refine ⟨hnd1, ?_⟩
      intro k
      by_cases hk : k = cacheKey st sl tl
      · rw [hk]
        simp
      · simp [hk, hiso k]

lemma add_length_le (c : TranslationCache) (cacheSize : Nat) (now : Int)
    (st sl tl tt : String) (hlen : c.keys.length ≤ cacheSize) :
    (c.add cacheSize now st sl tl tt).keys.length ≤ cacheSize := by
  cases hent : c.entries (cacheKey st sl tl) with
  | some e =>
    rw [add_eq_refresh c cacheSize now st sl tl tt e hent]
    simpa [length_moveToFront] using hlen
  | none =>
    by_cases hS : cacheSize < c.keys.length + 1
    · rw [add_eq_evict c cacheSize now st sl tl tt hent hS]
      simp only [List.length_dropLast, List.length_cons]
      omega
    · rw [add_eq_grow c cacheSize now st sl tl tt hent hS]
      simp only [List.length_cons]
      omega

lemma get_snd_cacheWF (c : TranslationCache) (cacheTTL now : Int)
    (st sl tl : String) (h : CacheWF c) :
    CacheWF (c.get cacheTTL now st sl tl).2 := by
  rcases h with ⟨hnd, hiso⟩
  cases hent : c.entries (cacheKey st sl tl) with
  | some e =>
    by_cases htt : now - e.timestamp < cacheTTL
    · rw [get_eq_hit c cacheTTL now st sl tl e hent htt]
      refine ⟨nodup_moveToFront _ _ hnd, ?_⟩
      intro k
      rw [mem_moveToFront]
      exact hiso k
    · rw [get_eq_stale c cacheTTL now st sl tl e hent htt]
      exact ⟨hnd, hiso⟩
  | none =>
    rw [get_eq_miss c cacheTTL now st sl tl hent]
    exact ⟨hnd, hiso⟩

lemma get_snd_length (c : TranslationCache) (cacheTTL now : Int)
    (st sl tl : String) :
    (c.get cacheTTL now st sl tl).2.keys.length = c.keys.length := by
  cases hent : c.entries (cacheKey st sl tl) with
  | some e =>
    by_cases htt : now - e.timestamp < cacheTTL
    · rw [get_eq_hit c cacheTTL now st sl tl e hent htt]
      simp [length_moveToFront]
    · rw [get_eq_stale c cacheTTL now st sl tl e hent htt]
  | none =>
    rw [get_eq_miss c cacheTTL now st sl tl hent]

lemma runCacheOps_inv (cacheSize : Nat) (cacheTTL : Int) :
    ∀ (ops : List CacheOp) (c : TranslationCache),
      CacheWF c → c.keys.length ≤ cacheSize →
      CacheWF (runCacheOps cacheSize cacheTTL ops c) ∧
      (runCacheOps cacheSize cacheTTL ops c).keys.length ≤ cacheSize := by
  intro ops
  induction ops with
  | nil => intro c h1 h2; exact ⟨h1, h2⟩
  | cons op rest ih =>
    intro c h1 h2
    have hstep : CacheWF (applyCacheOp cacheSize cacheTTL c op) ∧
        (applyCacheOp cacheSize cacheTTL c op).keys.length ≤ cacheSize := by
      cases op with
      | put now st sl tl tt =>
        exact ⟨add_cacheWF c cacheSize now st sl tl tt h1,
          add_length_le c cacheSize now st sl tl tt h2⟩
      | lookup now st sl tl =>
        refine ⟨get_snd_cacheWF c cacheTTL now st sl tl h1, ?_⟩
        show (c.get cacheTTL now st sl tl).2.keys.length ≤ cacheSize
        rw [get_snd_length]
        exact h2
    exact ih (applyCacheOp cacheSize cacheTTL c op) hstep.1 hstep.2

/-- One insertion request: clock reading, source text, source language,
target language, translated text. -/
abbrev CacheReq := Int × String × String × String × String

/-- Composite key of an insertion request. -/
abbrev reqKey (r : CacheReq) : String := cacheKey r.2.1 r.2.2.1 r.2.2.2.1

/-- Fold a list of insertions (source `add` calls) over a cache state. -/
def insertAll (cacheSize : Nat) (reqs : List CacheReq) (c : TranslationCache) :
    TranslationCache :=
  reqs.foldl (fun acc r => acc.add cacheSize r.1 r.2.1 r.2.2.1 r.2.2.2.1 r.2.2.2.2) c

lemma add_fresh_keys (c : TranslationCache) (cacheSize : Nat) (now : Int)
    (st sl tl tt : String)
    (hent : c.entries (cacheKey st sl tl) = none)
    (hlen : c.keys.length ≤ cacheSize) :
    (c.add cacheSize now st sl tl tt).keys =
      (cacheKey st sl tl :: c.keys).take cacheSize := by
  by_cases hS : cacheSize < c.keys.length + 1
  · rw [add_eq_evict c cacheSize now st sl tl tt hent hS]
    have hexact : c.keys.length = cacheSize := by omega
    rw [List.dropLast_eq_take]
    simp [hexact]
  · rw [add_eq_grow c cacheSize now st sl tl tt hent hS]
    have hle : (cacheKey st sl tl :: c.keys).length ≤ cacheSize := by
      simp only [List.length_cons]
      omega
    rw [List.take_of_length_le hle]

lemma take_append_take (A L : List String) (S : Nat) :
    (A ++ L.take S).take S = (A ++ L).take S := by
  rw [List.take_append_eq_append_take, List.take_append_eq_append_take, List.take_take,
    Nat.min_eq_left (Nat.sub_le S A.length)]

lemma insertAll_keys (cacheSize : Nat) :
    ∀ (reqs : List CacheReq) (c : TranslationCache),
      CacheWF c → c.keys.length ≤ cacheSize →
      (reqs.map reqKey).Nodup →
      (∀ r ∈ reqs, reqKey r ∉ c.keys) →
      (insertAll cacheSize reqs c).keys =
        ((reqs.map reqKey).reverse ++ c.keys).take cacheSize ∧
      CacheWF (insertAll cacheSize reqs c) := by
  intro reqs
  induction reqs with
  | nil =>
    intro c hwf hlen _ _
    refine ⟨?_, hwf⟩
    simp only [insertAll, List.foldl_nil, List.map_nil, List.reverse_nil, List.nil_append]
    exact (List.take_of_length_le hlen).symm
  | cons r rest ih =>
    intro c hwf hlen hnd hfresh
    have hentnone : c.entries (reqKey r) = none := by
      have h1 := hwf.2 (reqKey r)
      have h2 : reqKey r ∉ c.keys := hfresh r (List.mem_cons_self r rest)
      cases h : c.entries (reqKey r) with
      | none => rfl
      | some e =>
        exact absurd (h1.mp (by rw [h]; rfl)) h2
    have hc1keys : (c.add cacheSize r.1 r.2.1 r.2.2.1 r.2.2.2.1 r.2.2.2.2).keys =
        (reqKey r :: c.keys).take cacheSize :=
      add_fresh_keys c cacheSize r.1 _ _ _ _ hentnone hlen
    have hc1wf := add_cacheWF c cacheSize r.1 r.2.1 r.2.2.1 r.2.2.2.1 r.2.2.2.2 hwf
    have hc1len := add_length_le c cacheSize r.1 r.2.1 r.2.2.1 r.2.2.2.1 r.2.2.2.2 hlen
    have hndtail : (rest.map reqKey).Nodup := (List.nodup_cons.mp (by simpa using hnd)).2
    have hheadfresh : reqKey r ∉ rest.map reqKey :=
      (List.nodup_cons.mp (by simpa using hnd)).1
    have hfresh1 : ∀ r2 ∈ rest,
        reqKey r2 ∉ (c.add cacheSize r.1 r.2.1 r.2.2.1 r.2.2.2.1 r.2.2.2.2).keys := by
      intro r2 hr2 hmem
      rw [hc1keys] at hmem
      have hmem2 : reqKey r2 ∈ reqKey r :: c.keys :=
        (List.take_sublist _ _).subset hmem
      rcases List.mem_cons.mp hmem2 with h | h
      · exact hheadfresh (h ▸ List.mem_map_of_mem reqKey hr2)
      · exact hfresh r2 (List.mem_cons_of_mem _ hr2) h
    have hrest := ih (c.add cacheSize r.1 r.2.1 r.2.2.1 r.2.2.2.1 r.2.2.2.2)
      hc1wf hc1len hndtail hfresh1
    refine ⟨?_, hrest.2⟩
    have hunfold : insertAll cacheSize (r :: rest) c =
        insertAll cacheSize rest (c.add cacheSize r.1 r.2.1 r.2.2.1 r.2.2.2.1 r.2.2.2.2) := rfl
    rw [hunfold, hrest.1, hc1keys, take_append_take]
    congr 1
    simp [List.append_assoc]

/-- C2: for every sequence of cache insertions and lookups starting from
the empty cache, the number of stored entries (the recency list, which by
well-formedness indexes exactly the live entries) never exceeds the
configured capacity; and inserting capacity+1 distinct keys with no
intervening lookups evicts the least-recently-used entry, so the
first-inserted key is absent afterwards (its entry is gone from the store
outright, independent of any TTL). -/
theorem cache_capacity_and_lru_eviction :
    (∀ (cacheSize : Nat) (cacheTTL : Int) (ops : List CacheOp),
        (runCacheOps cacheSize cacheTTL ops emptyCache).keys.length ≤ cacheSize ∧
        CacheWF (runCacheOps cacheSize cacheTTL ops emptyCache)) ∧
    (∀ (cacheSize : Nat) (r0 : CacheReq) (rest : List CacheReq),
        (r0 :: rest).length = cacheSize + 1 →
        ((r0 :: rest).map reqKey).Nodup →
        (insertAll cacheSize (r0 :: rest) emptyCache).entries (reqKey r0) = none ∧
        reqKey r0 ∉ (insertAll cacheSize (r0 :: rest) emptyCache).keys) := by
  constructor
  · intro S ttl ops
    have h := runCacheOps_inv S ttl ops emptyCache cacheWF_empty (by simp [emptyCache])
    exact ⟨h.2, h.1⟩
  · intro S r0 rest hlen hnd
    have h := insertAll_keys S (r0 :: rest) emptyCache cacheWF_empty
      (by simp [emptyCache]) hnd (by intro r hr; simp [emptyCache])
    have hkeys := h.1
    rw [show emptyCache.keys = ([] : List String) from rfl, List.append_nil] at hkeys
    have hrev : ((r0 :: rest).map reqKey).reverse =
        (rest.map reqKey).reverse ++ [reqKey r0] := by
      simp
    have hrestlen : ((rest.map reqKey).reverse).length = S := by
      have : (r0 :: rest).length = S + 1 := hlen
      simp at this ⊢
      omega
    have htake : (((r0 :: rest).map reqKey).reverse).take S = (rest.map reqKey).reverse := by
      rw [hrev, List.take_append_eq_append_take,
        List.take_of_length_le (le_of_eq hrestlen), hrestlen]
      simp
    have hheadfresh : reqKey r0 ∉ rest.map reqKey :=
      (List.nodup_cons.mp (by simpa using hnd)).1
    have hnotmem : reqKey r0 ∉ (insertAll S (r0 :: rest) emptyCache).keys := by
      rw [hkeys, htake]
      simpa using hheadfresh
    refine ⟨?_, hnotmem⟩
    cases hE : (insertAll S (r0 :: rest) emptyCache).entries (reqKey r0) with
    | none => rfl
    | some e =>
      exact absurd ((h.2.2 (reqKey r0)).mp (by rw [hE]; rfl)) hnotmem

/-- Concrete instance of `cache_capacity_and_lru_eviction`: capacity 2,
three distinct keys inserted; the first key is evicted. -/
theorem cache_capacity_and_lru_eviction_witness :
    (([((0 : Int), "a", "s", "t", "x"), (0, "b", "s", "t", "y"),
        (0, "c", "s", "t", "z")] : List CacheReq).length = 2 + 1 ∧
     (([((0 : Int), "a", "s", "t", "x"), (0, "b", "s", "t", "y"),
        (0, "c", "s", "t", "z")] : List CacheReq).map reqKey).Nodup) ∧
    ((insertAll 2 [((0 : Int), "a", "s", "t", "x"), (0, "b", "s", "t", "y"),
        (0, "c", "s", "t", "z")] emptyCache).entries
      (reqKey ((0 : Int), "a", "s", "t", "x")) = none ∧
     reqKey ((0 : Int), "a", "s", "t", "x") ∉
      (insertAll 2 [((0 : Int), "a", "s", "t", "x"), (0, "b", "s", "t", "y"),
        (0, "c", "s", "t", "z")] emptyCache).keys) :=
  ⟨⟨by decide, by decide⟩,
   cache_capacity_and_lru_eviction.2 2 ((0 : Int), "a", "s", "t", "x")
     [(0, "b", "s", "t", "y"), (0, "c", "s", "t", "z")] (by decide) (by decide)⟩

/-- C3: cache `get` semantics.  A `get` returns the stored value exactly
when an entry exists for the composite key and its age is within the
configured TTL; it returns `none` when the entry has aged past the TTL
(even though no sweep has removed it) and when no entry exists.  A `put`
followed immediately by a `get` on the same key (same clock reading,
positive capacity and TTL, well-formed state) returns the exact stored
value. -/
theorem cache_get_put_semantics :
    (∀ (c : TranslationCache) (cacheTTL now : Int) (st sl tl : String) (e : CacheEntry),
        c.entries (cacheKey st sl tl) = some e →
        now - e.timestamp < cacheTTL →
        (c.get cacheTTL now st sl tl).1 = some e.translatedText) ∧
    (∀ (c : TranslationCache) (cacheTTL now : Int) (st sl tl : String) (e : CacheEntry),
        c.entries (cacheKey st sl tl) = some e →
        cacheTTL ≤ now - e.timestamp →
        (c.get cacheTTL now st sl tl).1 = none) ∧
    (∀ (c : TranslationCache) (cacheTTL now : Int) (st sl tl : String),
        c.entries (cacheKey st sl tl) = none →
        (c.get cacheTTL now st sl tl).1 = none) ∧
    (∀ (c : TranslationCache) (cacheSize : Nat) (cacheTTL now : Int) (st sl tl tt : String),
        CacheWF c → 0 < cacheSize → 0 < cacheTTL →
        ((c.add cacheSize now st sl tl tt).get cacheTTL now st sl tl).1 = some tt) := by
  refine ⟨?_, ?_, ?_, ?_⟩
  · intro c cacheTTL now st sl tl e hent htt
    rw [get_eq_hit c cacheTTL now st sl tl e hent htt]
  · intro c cacheTTL now st sl tl e hent htt
    rw [get_eq_stale c cacheTTL now st sl tl e hent (by omega)]
  · intro c cacheTTL now st sl tl hent
    rw [get_eq_miss c cacheTTL now st sl tl hent]
  · intro c cacheSize cacheTTL now st sl tl tt hwf hS httl
    have hfresh_entry :
        (c.add cacheSize now st sl tl tt).entries (cacheKey st sl tl) =
          some ⟨tt, now⟩ := by
      cases hent : c.entries (cacheKey st sl tl) with
      | some e =>
        rw [add_eq_refresh c cacheSize now st sl tl tt e hent]
        simp
      | none =>
        by_cases hEv : cacheSize < c.keys.length + 1
        · rw [add_eq_evict c cacheSize now st sl tl tt hent hEv]
          have hkeysne : c.keys ≠ [] := by
            intro hnil
            rw [hnil] at hEv
            simp at hEv
            omega
          have hne : cacheKey st sl tl :: c.keys ≠ [] := List.cons_ne_nil _ _
          have hlast : (cacheKey st sl tl :: c.keys).getLast hne = c.keys.getLast hkeysne :=
            List.getLast_cons hkeysne
          have hkey_not : cacheKey st sl tl ∉ c.keys := by
            intro hm
            have := (hwf.2 (cacheKey st sl tl)).mpr hm
            rw [hent] at this
            simp at this
          have hkey_ne_last : cacheKey st sl tl ≠ (cacheKey st sl tl :: c.keys).getLastD "" := by
            rw [getLastD_eq_getLast _ hne, hlast]
            intro heq
            exact hkey_not (heq ▸ List.getLast_mem hkeysne)
          simp only [List.getLastD_eq_getLast?] at hkey_ne_last
          simp [hkey_ne_last]
        · rw [add_eq_grow c cacheSize now st sl tl tt hent hEv]
          simp
    have htt : now - (⟨tt, now⟩ : CacheEntry).timestamp < cacheTTL := by
      show now - now < cacheTTL
      omega
    rw [get_eq_hit _ cacheTTL now st sl tl ⟨tt, now⟩ hfresh_entry htt]

/-- Concrete instance of `cache_get_put_semantics`: a one-entry cache hit
within TTL, the same entry aged out, a miss, and a put-get round trip. -/
theorem cache_get_put_semantics_witness :
    ((TranslationCache.mk ["s|t|a"]
        (fun k => if k = "s|t|a" then some ⟨"hello", 0⟩ else none)).entries
          (cacheKey "a" "s" "t") = some ⟨"hello", 0⟩ ∧
      (10 : Int) - (0 : Int) < 3600000 ∧
      ((TranslationCache.mk ["s|t|a"]
        (fun k => if k = "s|t|a" then some ⟨"hello", 0⟩ else none)).get 3600000 10
          "a" "s" "t").1 = some "hello") ∧
    ((3600000 : Int) ≤ 7200000 - 0 ∧
      ((TranslationCache.mk ["s|t|a"]
        (fun k => if k = "s|t|a" then some ⟨"hello", 0⟩ else none)).get 3600000 7200000
          "a" "s" "t").1 = none) ∧
    ((emptyCache.entries (cacheKey "a" "s" "t") = none) ∧
      (emptyCache.get 3600000 10 "a" "s" "t").1 = none) ∧
    (CacheWF emptyCache ∧ (0 : Nat) < 100 ∧ (0 : Int) < 3600000 ∧
      ((emptyCache.add 100 10 "a" "s" "t" "bonjour").get 3600000 10 "a" "s" "t").1 =
        some "bonjour") := by
  refine ⟨⟨by decide, by decide, ?_⟩, ⟨by decide, ?_⟩, ⟨by decide, ?_⟩,
    ⟨cacheWF_empty, by decide, by decide, ?_⟩⟩
  · exact cache_get_put_semantics.1 _ 3600000 10 "a" "s" "t" ⟨"hello", 0⟩
      (by decide) (by decide)
  · exact cache_get_put_semantics.2.1 _ 3600000 7200000 "a" "s" "t" ⟨"hello", 0⟩
      (by decide) (by decide)
  · exact cache_get_put_semantics.2.2.1 emptyCache 3600000 10 "a" "s" "t" (by decide)
  · exact cache_get_put_semantics.2.2.2 emptyCache 100 3600000 10 "a" "s" "t" "bonjour"
      cacheWF_empty (by decide) (by decide)

/-! ## src/src/managers/channelConfigs.js (second module concatenated into
rateLimiter.js in the snapshot)

Per-channel configuration.  The `prefix` field of the source is named
`cmdPrefix` here.  `savedFiles` models the contents of
`CONFIG_DIR/<normalizedName>.json`; the JSON-corruption recovery path
(backup + rewrite with defaults) only matters for unparseable files and is
not modelled - `savedFiles` holds already-parsed records. -/

structure ChannelConfig where
  autoTranslate : Bool
  respondToCommands : Bool
  excludedUsers : List String
  languageFilter : List String
  cmdPrefix : String
  moderatorOnly : Bool
  deriving Repr, DecidableEq

/-- Source `getDefaultConfig`. -/
def getDefaultConfig : ChannelConfig :=
  { autoTranslate := true
    respondToCommands := true
    excludedUsers := []
    languageFilter := []
    cmdPrefix := "!"
    moderatorOnly := false }

structure ChannelConfigs where
  configs : String → Option ChannelConfig
  savedFiles : String → Option ChannelConfig

/-- State of the config store at process start (constructor), with no
persisted records. -/
def emptyConfigs : ChannelConfigs := ⟨fun _ => none, fun _ => none⟩

/-- Source `saveConfig`: persist the in-memory record for the channel
(note: the channel name is normalized again here, as in the source). -/
def saveConfig (s : ChannelConfigs) (channelName : String) : ChannelConfigs :=
  let normalizedName := normalizeChannelName channelName
  { s with savedFiles := fun k =>
      if k = normalizedName then s.configs normalizedName else s.savedFiles k }

/-- Source `loadConfigByName`: read the persisted record if present,
otherwise install and persist the default configuration. -/
def loadConfigByName (s : ChannelConfigs) (channelName : String) : ChannelConfigs :=
  let normalizedName := normalizeChannelName channelName
  match s.savedFiles normalizedName with
  | some data =>
      { s with configs := fun k =>
          if k = normalizedName then some data else s.configs k }
  | none =>
      let s1 : ChannelConfigs :=
        { s with configs := fun k =>
            if k = normalizedName then some getDefaultConfig else s.configs k }
      saveConfig s1 normalizedName

/-- Source `getConfig`: lazily create the record, then return the entry
under the normalized name (which can be `none` only for names that are
not normalization fixed points, mirroring the source). -/
def getConfig (s : ChannelConfigs) (channelName : String) :
    Option ChannelConfig × ChannelConfigs :=
  let normalizedName := normalizeChannelName channelName
  match s.configs normalizedName with
  | some cfg => (some cfg, s)
  | none =>
      let s1 := loadConfigByName s normalizedName
      (s1.configs normalizedName, s1)

/-- Partial settings object passed to `updateConfig`: absent fields are
left unchanged by the shallow merge (JS object spread). -/
structure PartialSettings where
  autoTranslate : Option Bool := none
  respondToCommands : Option Bool := none
  excludedUsers : Option (List String) := none
  languageFilter : Option (List String) := none
  cmdPrefix : Option String := none
  moderatorOnly : Option Bool := none
  deriving Repr, DecidableEq

/-- Shallow merge `{...current, ...settings}`. -/
def mergeSettings (cfg : ChannelConfig) (s : PartialSettings) : ChannelConfig :=
  { autoTranslate := s.autoTranslate.getD cfg.autoTranslate
    respondToCommands := s.respondToCommands.getD cfg.respondToCommands
    excludedUsers := s.excludedUsers.getD cfg.excludedUsers
    languageFilter := s.languageFilter.getD cfg.languageFilter
    cmdPrefix := s.cmdPrefix.getD cfg.cmdPrefix
    moderatorOnly := s.moderatorOnly.getD cfg.moderatorOnly }

/-- Settings object for a full-record update (every field present), as the
command handlers pass the whole mutated config object back. -/
def toPartial (cfg : ChannelConfig) : PartialSettings :=
  { autoTranslate := some cfg.autoTranslate
    respondToCommands := some cfg.respondToCommands
    excludedUsers := some cfg.excludedUsers
    languageFilter := some cfg.languageFilter
    cmdPrefix := some cfg.cmdPrefix
    moderatorOnly := some cfg.moderatorOnly }

/-- Source `updateConfig`: re-read (or lazily create) the current value,
shallow-merge the provided fields over it, store and persist the result,
and return it.  When `getConfig` yields no record (non-fixed-point names)
the JS spread of `undefined` contributes no fields; the merge then starts
from the fields of `getDefaultConfig` only through `settings`, which is
modelled by merging over the default record - reachable only for channel
names whose normalized form still carries a sigil. -/
def updateConfig (s : ChannelConfigs) (channelName : String)
    (settings : PartialSettings) : ChannelConfig × ChannelConfigs :=
  let normalizedName := normalizeChannelName channelName
  let r := getConfig s normalizedName
  let merged := mergeSettings (r.1.getD getDefaultConfig) settings
  let s2 : ChannelConfigs :=
    { r.2 with configs := fun k =>
        if k = normalizedName then some merged else r.2.configs k }
  (merged, saveConfig s2 normalizedName)

/-- Current value `updateConfig` merges over: the in-memory record, else
the persisted record, else the lazily created default. -/
def currentOrDefault (s : ChannelConfigs) (n : String) : ChannelConfig :=
  match s.configs n with
  | some cfg => cfg
  | none =>
      match s.savedFiles n with
      | some data => data
      | none => getDefaultConfig

/-- C7: the config store keys records by the case-folded, sigil-stripped
channel name, so any two spellings with the same normalized form (such as
`"#Foo"` and `"foo"`) resolve to the same record for both `get` and
`update`. -/
theorem channel_key_normalization :
    (∀ (s : ChannelConfigs) (c1 c2 : String),
        normalizeChannelName c1 = normalizeChannelName c2 →
        getConfig s c1 = getConfig s c2 ∧
        ∀ settings, updateConfig s c1 settings = updateConfig s c2 settings) ∧
    normalizeChannelName "#Foo" = "foo" ∧ normalizeChannelName "foo" = "foo" := by
  refine ⟨?_, by decide, by decide⟩
  intro s c1 c2 h
  constructor
  · unfold getConfig
    rw [h]
  · intro settings
    unfold updateConfig
    rw [h]

/-- Concrete instance of `channel_key_normalization`: `"#Foo"` and
`"foo"` share one record. -/
theorem channel_key_normalization_witness :
    normalizeChannelName "#Foo" = normalizeChannelName "foo" ∧
    (getConfig emptyConfigs "#Foo" = getConfig emptyConfigs "foo" ∧
     ∀ settings, updateConfig emptyConfigs "#Foo" settings =
       updateConfig emptyConfigs "foo" settings) :=
  ⟨by decide, channel_key_normalization.1 emptyConfigs "#Foo" "foo" (by decide)⟩

/-- C6: `updateConfig` shallow-merges the provided fields over the current
(or lazily created default) record, stores it, persists it before
returning, and returns it; a subsequent `get` sees exactly the merged
record.  A `{prefix := "?"}` settings object changes only the prefix
field.  The hypothesis restricts to channel names whose normalized form is
a normalization fixed point (every real channel name; only pathological
names like `"##x"` fall outside it). -/
theorem config_update_shallow_merge :
    ∀ (s : ChannelConfigs) (channelName : String) (settings : PartialSettings),
      normalizeChannelName (normalizeChannelName channelName) =
        normalizeChannelName channelName →
      (updateConfig s channelName settings).1 =
        mergeSettings (currentOrDefault s (normalizeChannelName channelName)) settings ∧
      (getConfig (updateConfig s channelName settings).2 channelName).1 =
        some (mergeSettings (currentOrDefault s (normalizeChannelName channelName)) settings) ∧
      (updateConfig s channelName settings).2.savedFiles (normalizeChannelName channelName) =
        some (mergeSettings (currentOrDefault s (normalizeChannelName channelName)) settings) ∧
      ∀ cfg : ChannelConfig,
        mergeSettings cfg { cmdPrefix := some "?" } = { cfg with cmdPrefix := "?" } := by
  intro s channelName settings hidem
  refine ⟨?_, ?_, ?_, fun cfg => rfl⟩ <;>
  · cases hc : s.configs (normalizeChannelName channelName) with
    | some cfg =>
      simp [updateConfig, getConfig, saveConfig, currentOrDefault, hidem, hc]
    | none =>
      cases hf : s.savedFiles (normalizeChannelName channelName) with
      | some data =>
        simp [updateConfig, getConfig, loadConfigByName, saveConfig, currentOrDefault,
          hidem, hc, hf]
      | none =>
        simp [updateConfig, getConfig, loadConfigByName, saveConfig, currentOrDefault,
          hidem, hc, hf]

/-- Concrete instance of `config_update_shallow_merge`: updating the
prefix of `"#Foo"` on a fresh store persists the default record with only
its prefix changed. -/
theorem config_update_shallow_merge_witness :
    (normalizeChannelName (normalizeChannelName "#Foo") = normalizeChannelName "#Foo") ∧
    ((updateConfig emptyConfigs "#Foo" { cmdPrefix := some "?" }).1 =
        mergeSettings (currentOrDefault emptyConfigs (normalizeChannelName "#Foo"))
          { cmdPrefix := some "?" } ∧
      (getConfig (updateConfig emptyConfigs "#Foo" { cmdPrefix := some "?" }).2 "#Foo").1 =
        some (mergeSettings (currentOrDefault emptyConfigs (normalizeChannelName "#Foo"))
          { cmdPrefix := some "?" }) ∧
      (updateConfig emptyConfigs "#Foo" { cmdPrefix := some "?" }).2.savedFiles
          (normalizeChannelName "#Foo") =
        some (mergeSettings (currentOrDefault emptyConfigs (normalizeChannelName "#Foo"))
          { cmdPrefix := some "?" }) ∧
      ∀ cfg : ChannelConfig,
        mergeSettings cfg { cmdPrefix := some "?" } = { cfg with cmdPrefix := "?" }) :=
  ⟨by decide,
   config_update_shallow_merge emptyConfigs "#Foo" { cmdPrefix := some "?" } (by decide)⟩

/-! ## src/src/managers/tokenManager.js

Credential state of the `TokenManager` singleton.  The external token
exchange (`https.request` against the Twitch OAuth endpoint, including
HTTP status, body parsing and the missing-access-token check) is an
oracle: each attempt either yields a token (with an optional rotated
refresh token and an optional `expires_in`) or fails with a message. -/

structure TokenState where
  accessToken : String
  refreshTokenValue : String
  expiryTimestamp : Option Int
  refreshAttempts : Nat
  lastRefreshAttempt : Option Int
  deriving Repr, DecidableEq

/-- Outcome of one exchange against the token endpoint. -/
inductive RefreshOutcome where
  | success (accessToken : String) (newRefreshToken : Option String)
      (expiresIn : Option Int)
  | failure (message : String)

/-- Source `_performTokenRefresh`: rejects when credentials are missing
(falsy, i.e. empty, strings); on a successful exchange installs the new
access token, the rotated refresh token when one is returned, and the new
expiry (`expires_in` defaulting to 14400 seconds); on a failed exchange
rejects without touching the credential state. -/
def performTokenRefresh (clientId clientSecret : String) (now : Int)
    (st : TokenState) (outcome : RefreshOutcome) :
    TokenState × Except String String :=
  if clientId = "" ∨ clientSecret = "" ∨ st.refreshTokenValue = "" then
    (st, .error "Missing required credentials for token refresh")
  else
    match outcome with
    | .failure msg => (st, .error msg)
    | .success tok newRt expIn =>
        ({ st with
            accessToken := tok
            refreshTokenValue := newRt.getD st.refreshTokenValue
            expiryTimestamp := some (now + (expIn.getD 14400) * 1000) },
          .ok tok)

/-- Source `refreshToken` retry loop body: attempts run from `attempt` up
to `maxRetries`; the first success resets the failure bookkeeping and
returns the token, the last failure propagates its error.  The
exponential backoff delays are real-time waits with no effect on the
credential state and are not modelled. -/
def refreshTokenGo (clientId clientSecret : String) (now : Int)
    (outcomes : Nat → RefreshOutcome) (st : TokenState)
    (attempt maxRetries : Nat) : TokenState × Except String String :=
  match performTokenRefresh clientId clientSecret now st (outcomes attempt) with
  | (st1, .ok tok) =>
      ({ st1 with refreshAttempts := 0, lastRefreshAttempt := some now }, .ok tok)
  | (st1, .error e) =>
      if maxRetries ≤ attempt then (st1, .error e)
      else refreshTokenGo clientId clientSecret now outcomes st1 (attempt + 1) maxRetries
termination_by maxRetries - attempt
decreasing_by
  omega

/-- Source `refreshToken`: `maxRetries = 3`, attempts numbered from 1. -/
def refreshTokenFn (clientId clientSecret : String) (now : Int)
    (outcomes : Nat → RefreshOutcome) (st : TokenState) :
    TokenState × Except String String :=
  refreshTokenGo clientId clientSecret now outcomes st 1 3

lemma performTokenRefresh_error_state (clientId clientSecret : String) (now : Int)
    (st : TokenState) (o : RefreshOutcome) (e : String)
    (h : (performTokenRefresh clientId clientSecret now st o).2 = .error e) :
    (performTokenRefresh clientId clientSecret now st o).1 = st := by
  unfold performTokenRefresh at h ⊢
  by_cases hc : clientId = "" ∨ clientSecret = "" ∨ st.refreshTokenValue = ""
  · rw [if_pos hc]
  · rw [if_neg hc] at h ⊢
    cases o with
    | failure msg => rfl
    | success tok newRt expIn => simp at h

lemma refreshTokenGo_error_step (clientId clientSecret : String) (now : Int)
    (outcomes : Nat → RefreshOutcome) (st : TokenState) (attempt maxRetries : Nat)
    (e : String)
    (h : performTokenRefresh clientId clientSecret now st (outcomes attempt) =
      (st, .error e))
    (hlt : attempt < maxRetries) :
    refreshTokenGo clientId clientSecret now outcomes st attempt maxRetries =
      refreshTokenGo clientId clientSecret now outcomes st (attempt + 1) maxRetries := by
  conv_lhs => rw [refreshTokenGo]
  rw [h]
  simp [Nat.not_le.mpr hlt]

lemma refreshTokenGo_error_last (clientId clientSecret : String) (now : Int)
    (outcomes : Nat → RefreshOutcome) (st : TokenState) (attempt maxRetries : Nat)
    (e : String)
    (h : performTokenRefresh clientId clientSecret now st (outcomes attempt) =
      (st, .error e))
    (hge : maxRetries ≤ attempt) :
    refreshTokenGo clientId clientSecret now outcomes st attempt maxRetries =
      (st, .error e) := by
  conv_lhs => rw [refreshTokenGo]
  rw [h]
  simp [hge]

/-- C5: when every one of the three refresh attempts fails, `refreshToken`
fails with the error of the last attempt (the last underlying cause) and
the credential state - access token, refresh token, expiry timestamp and
the bookkeeping fields - is exactly what it was before the call. -/
theorem refresh_failure_preserves_credentials :
    ∀ (clientId clientSecret : String) (now : Int)
      (outcomes : Nat → RefreshOutcome) (st : TokenState),
      (∀ i, ∃ e, (performTokenRefresh clientId clientSecret now st (outcomes i)).2 =
        .error e) →
      refreshTokenFn clientId clientSecret now outcomes st =
        (st, (performTokenRefresh clientId clientSecret now st (outcomes 3)).2) := by
  intro clientId clientSecret now outcomes st hfail
  obtain ⟨e1, h1⟩ := hfail 1
  obtain ⟨e2, h2⟩ := hfail 2
  obtain ⟨e3, h3⟩ := hfail 3
  have hs1 := performTokenRefresh_error_state clientId clientSecret now st (outcomes 1) e1 h1
  have hs2 := performTokenRefresh_error_state clientId clientSecret now st (outcomes 2) e2 h2
  have hs3 := performTokenRefresh_error_state clientId clientSecret now st (outcomes 3) e3 h3
  unfold refreshTokenFn
  rw [refreshTokenGo_error_step clientId clientSecret now outcomes st 1 3 e1
      (Prod.ext hs1 h1) (by omega),
    refreshTokenGo_error_step clientId clientSecret now outcomes st 2 3 e2
      (Prod.ext hs2 h2) (by omega),
    refreshTokenGo_error_last clientId clientSecret now outcomes st 3 3 e3
      (Prod.ext hs3 h3) (by omega),
    h3]

/-- Concrete instance of `refresh_failure_preserves_credentials`: three
simulated HTTP failures leave the original token state intact and surface
the last error. -/
theorem refresh_failure_preserves_credentials_witness :
    (∀ i, ∃ e,
      (performTokenRefresh "cid" "csec" 0
        (TokenState.mk "oldAccess" "oldRefresh" (some 1000) 0 none)
        ((fun (_ : Nat) => RefreshOutcome.failure "HTTP Error 500") i)).2 = .error e) ∧
    refreshTokenFn "cid" "csec" 0 (fun (_ : Nat) => RefreshOutcome.failure "HTTP Error 500")
        (TokenState.mk "oldAccess" "oldRefresh" (some 1000) 0 none) =
      (TokenState.mk "oldAccess" "oldRefresh" (some 1000) 0 none,
        (performTokenRefresh "cid" "csec" 0
          (TokenState.mk "oldAccess" "oldRefresh" (some 1000) 0 none)
          ((fun (_ : Nat) => RefreshOutcome.failure "HTTP Error 500") 3)).2) := by
  constructor
  · intro i
    exact ⟨"HTTP Error 500", rfl⟩
  · exact refresh_failure_preserves_credentials "cid" "csec" 0
      (fun (_ : Nat) => RefreshOutcome.failure "HTTP Error 500")
      (TokenState.mk "oldAccess" "oldRefresh" (some 1000) 0 none)
      (fun i => ⟨"HTTP Error 500", rfl⟩)

/-! ## src/src/managers/globalIgnoreManager.js (third module concatenated
into rateLimiter.js in the snapshot) -/

/-- Source `GlobalIgnoreManager.add`: returns whether the user was newly
added, and the updated list.  Persistence (`save`) has no observable
effect beyond the list itself and is not modelled separately. -/
def ignoreAdd (l : List String) (username : String) : Bool × List String :=
  let normalizedName := jsToLower username
  if normalizedName ∈ l then (false, l) else (true, l ++ [normalizedName])

/-- Source `GlobalIgnoreManager.remove`. -/
def ignoreRemove (l : List String) (username : String) : Bool × List String :=
  let normalizedName := jsToLower username
  if normalizedName ∈ l then (true, l.erase normalizedName) else (false, l)

/-- Source `GlobalIgnoreManager.isIgnored`. -/
def isIgnored (l : List String) (username : String) : Bool :=
  jsToLower username ∈ l

/-! ## src/src/handlers/commands.js

Each handler returns the list of `chatClient.say` payloads it emits plus
its updated store.  The moderator flag `msg.userInfo.isMod` is the
`isMod` parameter. -/

/-- Dynamic property lookup `channelConfig[setting]` on the camelCase
field names of the config object, rendered the way JS string interpolation
renders the field values; `none` models the `undefined` result for any
other key. -/
def configFieldGet (cfg : ChannelConfig) (key : String) : Option String :=
  if key = "autoTranslate" then some (toString cfg.autoTranslate)
  else if key = "respondToCommands" then some (toString cfg.respondToCommands)
  else if key = "excludedUsers" then some (String.intercalate "," cfg.excludedUsers)
  else if key = "languageFilter" then some (String.intercalate "," cfg.languageFilter)
  else if key = "prefix" then some cfg.cmdPrefix
  else if key = "moderatorOnly" then some (toString cfg.moderatorOnly)
  else none

/-- Source `CommandHandler.handleConfig`. -/
def handleConfig (s : ChannelConfigs) (channel user : String) (args : List String)
    (isMod : Bool) : List String × ChannelConfigs :=
  let channelName := normalizeChannelName channel
  let r := getConfig s channelName
  let channelConfig := r.1.getD getDefaultConfig
  let s1 := r.2
  if ¬ isMod ∧ jsToLower user ≠ channelName then ([], s1)
  else
    match args with
    | [] =>
        (["@" ++ user ++
          " Available settings: autoTranslate, respondToCommands, prefix, moderatorOnly"], s1)
    | a0 :: restArgs =>
        let setting := jsToLower a0
        match restArgs with
        | [] =>
            let shown := (configFieldGet channelConfig setting).getD "undefined"
            (["@" ++ user ++ " " ++ setting ++ " = " ++ shown], s1)
        | a1 :: _ =>
            let value := jsToLower a1
            let updated : Option ChannelConfig :=
              if setting = "autotranslate" then
                some { channelConfig with autoTranslate := value == "true" || value == "on" }
              else if setting = "respondtocommands" then
                some { channelConfig with respondToCommands := value == "true" || value == "on" }
              else if setting = "prefix" then
                some { channelConfig with cmdPrefix := value }
              else if setting = "moderatoronly" then
                some { channelConfig with moderatorOnly := value == "true" || value == "on" }
              else none
            match updated with
            | none => (["@" ++ user ++ " Unknown setting: " ++ setting], s1)
            | some cfg1 =>
                let r2 := updateConfig s1 channelName (toPartial cfg1)
                let shown := (configFieldGet cfg1 setting).getD "undefined"
                (["@" ++ user ++ " Updated: " ++ setting ++ " = " ++ shown], r2.2)

/-- Source `CommandHandler.handleExclude`. -/
def handleExclude (s : ChannelConfigs) (channel user : String) (args : List String)
    (isMod : Bool) : List String × ChannelConfigs :=
  let channelName := normalizeChannelName channel
  let r := getConfig s channelName
  let channelConfig := r.1.getD getDefaultConfig
  let s1 := r.2
  if ¬ isMod ∧ jsToLower user ≠ channelName then ([], s1)
  else
    match args with
    | [] => (["@" ++ user ++ " Usage: !exclude [username]"], s1)
    | a0 :: _ =>
        let userToExclude := jsToLower a0
        if userToExclude ∈ channelConfig.excludedUsers then
          (["@" ++ user ++ " " ++ userToExclude ++ " is already excluded."], s1)
        else
          let cfg1 := { channelConfig with
            excludedUsers := channelConfig.excludedUsers ++ [userToExclude] }
          let r2 := updateConfig s1 channelName (toPartial cfg1)
          (["@" ++ user ++ " Added " ++ userToExclude ++ " to excluded users."], r2.2)

/-- Source `CommandHandler.handleInclude`. -/
def handleInclude (s : ChannelConfigs) (channel user : String) (args : List String)
    (isMod : Bool) : List String × ChannelConfigs :=
  let channelName := normalizeChannelName channel
  let r := getConfig s channelName
  let channelConfig := r.1.getD getDefaultConfig
  let s1 := r.2
  if ¬ isMod ∧ jsToLower user ≠ channelName then ([], s1)
  else
    match args with
    | [] => (["@" ++ user ++ " Usage: !include [username]"], s1)
    | a0 :: _ =>
        let userToInclude := jsToLower a0
        if userToInclude ∈ channelConfig.excludedUsers then
          let cfg1 := { channelConfig with
            excludedUsers := channelConfig.excludedUsers.erase userToInclude }
          let r2 := updateConfig s1 channelName (toPartial cfg1)
          (["@" ++ user ++ " Removed " ++ userToInclude ++ " from excluded users."], r2.2)
        else
          (["@" ++ user ++ " " ++ userToInclude ++ " is not excluded."], s1)

/-- Source `CommandHandler.handleGlobalIgnore`: gated to the configured
bot-owner identity, or the channel owner when none is configured. -/
def handleGlobalIgnore (botOwnerId : Option String) (ignore : List String)
    (channel user : String) (args : List String) (pfx command : String) :
    List String × List String :=
  let isOwner : Bool :=
    match botOwnerId with
    | some oid => jsToLower user == jsToLower oid
    | none => jsToLower user == normalizeChannelName channel
  if ¬ isOwner then ([], ignore)
  else
    match args with
    | [] =>
        (["@" ++ user ++ " Usage: " ++ pfx ++ command ++ " [add/remove/list] [username]"],
          ignore)
    | a0 :: restArgs =>
        match jsToLower a0 with
        | "add" =>
            match restArgs with
            | [] => (["@" ++ user ++ " Usage: " ++ pfx ++ command ++ " add [username]"], ignore)
            | u :: _ =>
                let userToIgnore := jsToLower u
                let r := ignoreAdd ignore userToIgnore
                if r.1 then
                  (["@" ++ user ++ " Added " ++ userToIgnore ++ " to global ignore list."], r.2)
                else
                  (["@" ++ user ++ " " ++ userToIgnore ++
                    " is already in the global ignore list."], r.2)
        | "remove" =>
            match restArgs with
            | [] =>
                (["@" ++ user ++ " Usage: " ++ pfx ++ command ++ " remove [username]"], ignore)
            | u :: _ =>
                let userToUnignore := jsToLower u
                let r := ignoreRemove ignore userToUnignore
                if r.1 then
                  (["@" ++ user ++ " Removed " ++ userToUnignore ++
                    " from global ignore list."], r.2)
                else
                  (["@" ++ user ++ " " ++ userToUnignore ++
                    " is not in the global ignore list."], r.2)
        | "list" =>
            if ignore.isEmpty then
              (["@" ++ user ++ " Global ignore list is empty."], ignore)
            else
              let len := ignore.length
              let msgs := (List.range ((len + 9) / 10)).map fun j =>
                let i := j * 10
                let chunk := String.intercalate ", " ((ignore.drop i).take 10)
                "@" ++ user ++ " Global ignore list (" ++ toString (i + 1) ++ "-" ++
                  toString (min (i + 10) len) ++ "/" ++ toString len ++ "): " ++ chunk
              (msgs, ignore)
        | other =>
            (["@" ++ user ++ " Unknown action: " ++ other ++ ". Use add, remove, or list."],
              ignore)

/-- Source `CommandHandler.handleTranslate`; the external translator is
the oracle `translator (sourceLang) (text)`. -/
def handleTranslate (translator : String → String → Except String String)
    (cacheSize : Nat) (cacheTTL now : Int) (cache : TranslationCache)
    (user : String) (args : List String) : List String × TranslationCache :=
  match args with
  | [] => (["@" ++ user ++ " Usage: !translate [language] [text]"], cache)
  | [_] => (["@" ++ user ++ " Usage: !translate [language] [text]"], cache)
  | a0 :: restArgs =>
      let sourceLang := jsToLower a0
      let textToTranslate := String.intercalate " " restArgs
      if textToTranslate.length < 2 then
        (["@" ++ user ++ " Text too short to translate."], cache)
      else
        let r := cache.get cacheTTL now textToTranslate sourceLang "en"
        match r.1 with
        | some cached =>
            (["@" ++ user ++ " [" ++ sourceLang ++ "→en]: " ++ cached], r.2)
        | none =>
            match translator sourceLang textToTranslate with
            | .ok t =>
                let cache2 := r.2.add cacheSize now textToTranslate sourceLang "en" t
                (["@" ++ user ++ " [" ++ sourceLang ++ "→en]: " ++ t], cache2)
            | .error e =>
                (["@" ++ user ++ " Error translating: " ++ e], r.2)

/-- Source `CommandHandler.handleHelp`. -/
def handleHelp (botOwnerId : Option String) (channel user pfx : String) : List String :=
  let helpCommands := [pfx ++ "translate", pfx ++ "config", pfx ++ "exclude", pfx ++ "include"]
  let isOwner : Bool :=
    match botOwnerId with
    | some oid => jsToLower user == jsToLower oid
    | none => jsToLower user == normalizeChannelName channel
  let helpCommands1 := if isOwner then helpCommands ++ [pfx ++ "globalignore"] else helpCommands
  ["@" ++ user ++ " Available commands: " ++
    String.intercalate ", " (helpCommands1 ++ [pfx ++ "help"])]

/-- Source `CommandHandler.handleRefreshToken`: gated to the channel-owner
identity; reports success or the surfaced error. -/
def handleRefreshToken (clientId clientSecret : String) (now : Int)
    (outcomes : Nat → RefreshOutcome) (tokenSt : TokenState)
    (channel user : String) : List String × TokenState :=
  if jsToLower user ≠ normalizeChannelName channel then ([], tokenSt)
  else
    let r := refreshTokenFn clientId clientSecret now outcomes tokenSt
    match r.2 with
    | .ok _ =>
        (["@" ++ user ++ " Manually refreshing token...",
          "@" ++ user ++ " Token successfully refreshed!"], r.1)
    | .error e =>
        (["@" ++ user ++ " Manually refreshing token...",
          "@" ++ user ++ " Error refreshing token: " ++ e], r.1)

/-! ## MessageHandler.handleCommand (src/src/handlers, concatenated into
translationCache.js in the snapshot) -/

/-- Combined mutable state of the singletons the command dispatcher
touches. -/
structure BotState where
  channelConfigs : ChannelConfigs
  globalIgnore : List String
  cache : TranslationCache
  tokenState : TokenState

/-- Static configuration and external oracles of the command dispatcher. -/
structure CmdEnv where
  botOwnerId : Option String
  clientId : String
  clientSecret : String
  translator : String → String → Except String String
  refreshOutcomes : Nat → RefreshOutcome
  cacheSize : Nat
  cacheTTL : Int
  now : Int

/-- Source `MessageHandler.handleCommand`: checks `respondToCommands`,
parses `message.slice(prefix.length).trim().split(/\s+/)`, applies the
`moderatorOnly` gate before dispatch, then dispatches on the lower-cased
command word (unknown commands fall through silently). -/
def handleCommand (env : CmdEnv) (st : BotState) (channel user message : String)
    (isMod : Bool) (pfx : String) : List String × BotState :=
  let channelName := normalizeChannelName channel
  let r := getConfig st.channelConfigs channelName
  let channelConfig := r.1.getD getDefaultConfig
  let st1 : BotState := { st with channelConfigs := r.2 }
  if ¬ channelConfig.respondToCommands then ([], st1)
  else
    let parts := splitWs (jsTrim ⟨message.data.drop pfx.length⟩)
    let command := jsToLower (parts.headD "")
    let args := parts.tail
    if channelConfig.moderatorOnly ∧ ¬ isMod ∧ jsToLower user ≠ channelName then ([], st1)
    else
      match command with
      | "globalignore" | "gignore" =>
          let r2 := handleGlobalIgnore env.botOwnerId st1.globalIgnore channel user args
            pfx command
          (r2.1, { st1 with globalIgnore := r2.2 })
      | "translate" =>
          let r2 := handleTranslate env.translator env.cacheSize env.cacheTTL env.now
            st1.cache user args
          (r2.1, { st1 with cache := r2.2 })
      | "config" =>
          let r2 := handleConfig st1.channelConfigs channel user args isMod
          (r2.1, { st1 with channelConfigs := r2.2 })
      | "exclude" =>
          let r2 := handleExclude st1.channelConfigs channel user args isMod
          (r2.1, { st1 with channelConfigs := r2.2 })
      | "include" =>
          let r2 := handleInclude st1.channelConfigs channel user args isMod
          (r2.1, { st1 with channelConfigs := r2.2 })
      | "help" =>
          (handleHelp env.botOwnerId channel user pfx, st1)
      | "refreshtoken" =>
          let r2 := handleRefreshToken env.clientId env.clientSecret env.now
            env.refreshOutcomes st1.tokenState channel user
          (r2.1, { st1 with tokenState := r2.2 })
      | _ => ([], st1)

/-- C9: every gated command issued by a user who is neither a moderator
(`isMod = false`) nor the required owner identity terminates without
sending any reply: config, exclude, include, globalignore (owner-gated),
refreshtoken (channel-owner-gated), and any command at all in a channel
with the `moderatorOnly` setting enabled. -/
theorem gated_commands_silent :
    (∀ (s : ChannelConfigs) (channel user : String) (args : List String),
        jsToLower user ≠ normalizeChannelName channel →
        (handleConfig s channel user args false).1 = []) ∧
    (∀ (s : ChannelConfigs) (channel user : String) (args : List String),
        jsToLower user ≠ normalizeChannelName channel →
        (handleExclude s channel user args false).1 = []) ∧
    (∀ (s : ChannelConfigs) (channel user : String) (args : List String),
        jsToLower user ≠ normalizeChannelName channel →
        (handleInclude s channel user args false).1 = []) ∧
    (∀ (botOwnerId : Option String) (ignore : List String) (channel user : String)
        (args : List String) (pfx command : String),
        (match botOwnerId with
          | some oid => jsToLower user == jsToLower oid
          | none => jsToLower user == normalizeChannelName channel) = false →
        (handleGlobalIgnore botOwnerId ignore channel user args pfx command).1 = []) ∧
    (∀ (clientId clientSecret : String) (now : Int) (outcomes : Nat → RefreshOutcome)
        (tokenSt : TokenState) (channel user : String),
        jsToLower user ≠ normalizeChannelName channel →
        (handleRefreshToken clientId clientSecret now outcomes tokenSt channel user).1 = []) ∧
    (∀ (env : CmdEnv) (st : BotState) (channel user message : String) (pfx : String),
        jsToLower user ≠ normalizeChannelName channel →
        ((getConfig st.channelConfigs (normalizeChannelName channel)).1.getD
          getDefaultConfig).moderatorOnly = true →
        (handleCommand env st channel user message false pfx).1 = []) := by
  refine ⟨?_, ?_, ?_, ?_, ?_, ?_⟩
  · intro s channel user args h
    simp [handleConfig, h]
  · intro s channel user args h
    simp [handleExclude, h]
  · intro s channel user args h
    simp [handleInclude, h]
  · intro botOwnerId ignore channel user args pfx command h
    simp [handleGlobalIgnore, h]
  · intro clientId clientSecret now outcomes tokenSt channel user h
    simp [handleRefreshToken, h]
  · intro env st channel user message pfx huser hmod
    by_cases hrc : ((getConfig st.channelConfigs (normalizeChannelName channel)).1.getD
        getDefaultConfig).respondToCommands
    · simp [handleCommand, hrc, hmod, huser]
    · simp [handleCommand, hrc]

/-- Concrete instance of `gated_commands_silent`: the non-moderator,
non-owner user "mallory" gets no reply from any gated command. -/
theorem gated_commands_silent_witness :
    (jsToLower "mallory" ≠ normalizeChannelName "#Foo" ∧
      (handleConfig emptyConfigs "#Foo" "mallory" ["prefix", "?"] false).1 = []) ∧
    ((handleExclude emptyConfigs "#Foo" "mallory" ["bob"] false).1 = []) ∧
    ((handleInclude emptyConfigs "#Foo" "mallory" ["bob"] false).1 = []) ∧
    ((handleGlobalIgnore (some "owner") [] "#Foo" "mallory" ["list"] "!"
        "globalignore").1 = []) ∧
    ((handleRefreshToken "cid" "csec" 0
        (fun (_ : Nat) => RefreshOutcome.failure "boom")
        (TokenState.mk "a" "r" none 0 none) "#Foo" "mallory").1 = []) ∧
    ((handleCommand
        (CmdEnv.mk none "cid" "csec" (fun _ _ => Except.error "no") 
          (fun (_ : Nat) => RefreshOutcome.failure "boom") 100 3600000 0)
        (BotState.mk
          (ChannelConfigs.mk
            (fun k => if k = "foo" then
                some { getDefaultConfig with moderatorOnly := true } else none)
            (fun _ => none))
          [] emptyCache (TokenState.mk "a" "r" none 0 none))
        "#Foo" "mallory" "!help" false "!").1 = []) := by
  refine ⟨⟨by decide, ?_⟩, ?_, ?_, ?_, ?_, ?_⟩
  · exact gated_commands_silent.1 emptyConfigs "#Foo" "mallory" ["prefix", "?"] (by decide)
  · exact gated_commands_silent.2.1 emptyConfigs "#Foo" "mallory" ["bob"] (by decide)
  · exact gated_commands_silent.2.2.1 emptyConfigs "#Foo" "mallory" ["bob"] (by decide)
  · exact gated_commands_silent.2.2.2.1 (some "owner") [] "#Foo" "mallory" ["list"] "!"
      "globalignore" (by decide)
  · exact gated_commands_silent.2.2.2.2.1 "cid" "csec" 0
      (fun (_ : Nat) => RefreshOutcome.failure "boom")
      (TokenState.mk "a" "r" none 0 none) "#Foo" "mallory" (by decide)
  · exact gated_commands_silent.2.2.2.2.2
      (CmdEnv.mk none "cid" "csec" (fun _ _ => Except.error "no")
        (fun (_ : Nat) => RefreshOutcome.failure "boom") 100 3600000 0)
      (BotState.mk
        (ChannelConfigs.mk
          (fun k => if k = "foo" then
              some { getDefaultConfig with moderatorOnly := true } else none)
          (fun _ => none))
        [] emptyCache (TokenState.mk "a" "r" none 0 none))
      "#Foo" "mallory" "!help" "!" (by decide) (by decide)

/-- C8 (code bug): with no value supplied, `handleConfig` replies with the
dynamic lookup `channelConfig[setting]` of the lower-cased setting name,
which misses every camelCase field: `!config autoTranslate` from a
moderator on a fresh store replies "autotranslate = undefined" although
the stored field `autoTranslate` is `true`; only the all-lowercase field
name `prefix` round-trips. -/
theorem config_show_value_lookup_mismatch :
    (handleConfig emptyConfigs "chan" "mod" ["autoTranslate"] true).1 =
      ["@mod autotranslate = undefined"] ∧
    ((getConfig emptyConfigs "chan").1.getD getDefaultConfig).autoTranslate = true ∧
    (handleConfig emptyConfigs "chan" "mod" ["prefix"] true).1 =
      ["@mod prefix = !"] := by
  refine ⟨?_, ?_, ?_⟩ <;> decide

/-! ## MessageHandler auto-translation path (src/src/handlers,
concatenated into translationCache.js in the snapshot) -/

/-- Source emote restoration: `translatedText.replace(/\{EMOTE\}/g, ...)`
substituting the collected emotes in order (missing entries become the
empty string). -/
def restoreEmotes (text : String) (emotes : List String) : String :=
  match splitOnEmote text.data with
  | [] => ""
  | s0 :: rest =>
      (⟨s0⟩ : String) ++
        String.join (rest.enum.map fun p => (emotes.getD p.1 "") ++ (⟨p.2⟩ : String))

/-- Source `MessageHandler.validateForTranslation`: auto-translate
enabled, sender not excluded or globally ignored, message at least 5
characters. -/
def validateForTranslation (channelConfig : ChannelConfig) (globalIgnore : List String)
    (message user : String) : Bool :=
  if ¬ channelConfig.autoTranslate then false
  else if jsToLower user ∈ channelConfig.excludedUsers ∨ isIgnored globalIgnore user then
    false
  else if message.length < 5 then false
  else true

/-- Result of one `handleAutoTranslation` run: whether the language
detector and the external translator were invoked, the emitted replies,
and the updated rate limiter and cache. -/
structure AutoTransResult where
  detectorCalled : Bool
  translatorCalled : Bool
  replies : List String
  rl : RateLimiter
  cache : TranslationCache

/-- Static configuration and external oracles of the auto-translation
path: `detector` is `langdetect.detect` (ranked language/probability
pairs, probabilities as rationals), `translator` the external translate
call with its timeout folded into the error case, `inappropriate` the
moderation pattern list (an external collaborator per the spec scope). -/
structure PipelineEnv where
  minConfidence : Rat
  rateG : Nat
  rateN : Nat
  cacheSize : Nat
  cacheTTL : Int
  now : Int
  detector : String → List (String × Rat)
  translator : String → Except String String
  inappropriate : String → Bool

/-- Source `MessageHandler.handleAutoTranslation`, gate for gate.  The
short-after-emote-processing check fires only when `hasEmotes` is set; an
empty string from the cache is falsy in JS and falls through to the
external call, as in the source. -/
def handleAutoTranslation (env : PipelineEnv) (rl : RateLimiter)
    (cache : TranslationCache) (globalIgnore : List String)
    (channelConfig : ChannelConfig) (channel user message : String) : AutoTransResult :=
  if ¬ validateForTranslation channelConfig globalIgnore message user then
    ⟨false, false, [], rl, cache⟩
  else
    let emoteData := processEmotes message
    if emoteData.hasEmotes ∧
        (stripEmotePlaceholders (jsTrim emoteData.processed)).length < 5 then
      ⟨false, false, [], rl, cache⟩
    else
      let sanitizedMessage := sanitizeText emoteData.processed
      if env.inappropriate sanitizedMessage then ⟨false, false, [], rl, cache⟩
      else
        let ra := shouldTranslate env.rateG env.rateN rl channel env.now
        if ¬ ra.1 then ⟨false, false, [], ra.2, cache⟩
        else
          match env.detector sanitizedMessage with
          | [] => ⟨true, false, [], ra.2, cache⟩
          | (detectedLang, confidence) :: _ =>
              if confidence < env.minConfidence ∨ detectedLang = "en" then
                ⟨true, false, [], ra.2, cache⟩
              else if channelConfig.languageFilter ≠ [] ∧
                  detectedLang ∉ channelConfig.languageFilter then
                ⟨true, false, [], ra.2, cache⟩
              else
                let emit := fun (apiCalled : Bool) (translatedText : String)
                    (cacheF : TranslationCache) =>
                  if translatedText = "" then
                    (⟨true, apiCalled, [], ra.2, cacheF⟩ : AutoTransResult)
                  else
                    let finalText :=
                      if emoteData.hasEmotes then
                        restoreEmotes translatedText emoteData.emotes
                      else translatedText
                    ⟨true, apiCalled,
                      ["[" ++ user ++ ", " ++ detectedLang ++ "→en]: " ++ finalText],
                      ra.2, cacheF⟩
                let apiPath := fun (cacheA : TranslationCache) =>
                  match env.translator sanitizedMessage with
                  | .error _ => (⟨true, true, [], ra.2, cacheA⟩ : AutoTransResult)
                  | .ok raw =>
                      let translatedText := sanitizeText raw
                      let cache2 := cacheA.add env.cacheSize env.now sanitizedMessage
                        detectedLang "en" translatedText
                      emit true translatedText cache2
                let rc := cache.get env.cacheTTL env.now sanitizedMessage detectedLang "en"
                match rc.1 with
                | some t => if t = "" then apiPath rc.2 else emit false t rc.2
                | none => apiPath rc.2

/-- Concrete pipeline environment for the emote-gate instances: default
limits, an idle detector and translator, no moderation matches. -/
def emoteGateEnv : PipelineEnv :=
  { minConfidence := 1 / 2
    rateG := 20
    rateN := 10
    cacheSize := 100
    cacheTTL := 3600000
    now := 0
    detector := fun _ => []
    translator := fun _ => .error "unused"
    inappropriate := fun _ => false }

/-- C10 refutation: the message `"a   b"` (five characters, no emotes)
collapses to `"a b"` after emote processing - fewer than 5 characters of
remaining text - yet the pipeline still performs language detection,
because the short-after-emote-processing guard fires only when the
message contains at least one emote token. -/
theorem emote_length_gate_counterexample :
    ((stripEmotePlaceholders (jsTrim (processEmotes "a   b").processed)).length < 5) ∧
    (processEmotes "a   b").hasEmotes = false ∧
    (handleAutoTranslation emoteGateEnv initialRateLimiter emptyCache [] getDefaultConfig
      "chan" "alice" "a   b").detectorCalled = true := by
  refine ⟨?_, ?_, ?_⟩ <;> decide

/-- C10 as amended: for an auto-translate candidate message that contains
at least one emote token, if the text remaining after replacing emote
tokens with placeholders (trimmed, placeholders excluded) is shorter
than 5 characters, the pipeline drops the message - no language
detection, no translator call, no reply. -/
theorem emote_only_messages_dropped :
    ∀ (env : PipelineEnv) (rl : RateLimiter) (cache : TranslationCache)
      (globalIgnore : List String) (channelConfig : ChannelConfig)
      (channel user message : String),
      (processEmotes message).hasEmotes = true →
      (stripEmotePlaceholders (jsTrim (processEmotes message).processed)).length < 5 →
      (handleAutoTranslation env rl cache globalIgnore channelConfig channel user
          message).detectorCalled = false ∧
      (handleAutoTranslation env rl cache globalIgnore channelConfig channel user
          message).translatorCalled = false ∧
      (handleAutoTranslation env rl cache globalIgnore channelConfig channel user
          message).replies = [] := by
  intro env rl cache globalIgnore channelConfig channel user message h1 h2
  by_cases hv : validateForTranslation channelConfig globalIgnore message user
  · refine ⟨?_, ?_, ?_⟩ <;> simp [handleAutoTranslation, hv, h1, h2]
  · refine ⟨?_, ?_, ?_⟩ <;> simp [handleAutoTranslation, hv]

/-- Concrete instance of `emote_only_messages_dropped`: the message
`":kappa_1: hi"` leaves only `" hi"` after placeholder removal and is
dropped before detection. -/
theorem emote_only_messages_dropped_witness :
    ((processEmotes ":kappa_1: hi").hasEmotes = true ∧
     (stripEmotePlaceholders (jsTrim (processEmotes ":kappa_1: hi").processed)).length < 5) ∧
    ((handleAutoTranslation emoteGateEnv initialRateLimiter emptyCache [] getDefaultConfig
        "chan" "alice" ":kappa_1: hi").detectorCalled = false ∧
     (handleAutoTranslation emoteGateEnv initialRateLimiter emptyCache [] getDefaultConfig
        "chan" "alice" ":kappa_1: hi").translatorCalled = false ∧
     (handleAutoTranslation emoteGateEnv initialRateLimiter emptyCache [] getDefaultConfig
        "chan" "alice" ":kappa_1: hi").replies = []) :=
  ⟨⟨by decide, by decide⟩,
   emote_only_messages_dropped emoteGateEnv initialRateLimiter emptyCache []
     getDefaultConfig "chan" "alice" ":kappa_1: hi" (by decide) (by decide)⟩
